import Mathlib

/-!
Verification of the CSV uploader / table viewer.

The development shallowly embeds the two parts of the repository that carry
algorithmic content:

* the CSV parsing engine of `src/components/csv-table.tsx`
  (`parseCSV`, `readCSVRow`, `parseCSVLine`), and
* the table-state operations of the `CSVTable` component
  (`sortedRows`, `totalPages`, `visibleRows`, `handleSort`,
  `handlePreviousPage`, `handleNextPage`, `toggleColumn`, `toggleAllColumns`).

JavaScript strings are modelled as Lean `String`/`List Char`; the library
functions the source calls (`split`, `trim`, `toLowerCase`) are given explicit
ASCII-faithful definitions below so that their behaviour is fully analysable.
A JS object `Record<string, string>` is modelled as an association list whose
insertion/overwrite discipline mirrors JS property assignment (insertion
order, assignment to an existing key keeps its position).
-/

/-- JS `String.prototype.trim` whitespace test, restricted to the ASCII
whitespace characters that can occur in this code path. -/
def isWS (c : Char) : Bool :=
  c = ' ' || c = '\t' || c = '\n' || c = '\r'

/-- Character-list version of JS `trim`: drop whitespace from both ends. -/
def trimChars (cs : List Char) : List Char :=
  ((cs.dropWhile isWS).reverse.dropWhile isWS).reverse

/-- JS `s.trim()` on Lean strings. -/
def trimStr (s : String) : String :=
  String.mk (trimChars s.toList)

/-- Split a character list on a separator character, keeping empty pieces;
the semantics of JS `text.split("\n")` (always at least one piece). -/
def splitChar (sep : Char) : List Char → List (List Char)
  | [] => [[]]
  | c :: cs =>
    let r := splitChar sep cs
    if c = sep then [] :: r
    else
      match r with
      | [] => [[c]]
      | piece :: rest => (c :: piece) :: rest

/-- `text.split("\n")` from `parseCSV`. -/
def splitLines (text : String) : List String :=
  (splitChar '\n' text.toList).map String.mk

/-- The quote-counting loop of `readCSVRow`: number of `"` characters. -/
def countQuotes (s : String) : Nat :=
  s.toList.countP (fun c => c = '"')

/-- `readCSVRow` from `csv-table.tsx`: starting from the raw line `line`, as
long as the accumulated line holds an odd number of quotes, append the next
raw line with a newline separator.  Returns the joined logical row line and
the remaining raw lines (the source's `nextIndex`, expressed as the list
suffix that starts at that index).  The `delim` parameter is kept from the
source signature although the source never reads it. -/
def readCSVRow (delim : Char) (line : String) : List String → String × List String
  | [] => (line, [])
  | next :: rest =>
    if countQuotes line % 2 = 1 then
      readCSVRow delim (line ++ "\n" ++ next) rest
    else
      (line, next :: rest)

/-- Character scanner of `parseCSVLine`: `insideQuotes` flag, accumulator
`cur`, the doubled-quote escape, delimiter splitting outside quotes, and a
final trimmed field at end of line. -/
def parseCSVLineAux (delim : Char) : List Char → Bool → List Char → List (List Char)
  | [], _, cur => [trimChars cur]
  | '"' :: '"' :: cs2, true, cur => parseCSVLineAux delim cs2 true (cur ++ ['"'])
  | '"' :: cs, insideQuotes, cur => parseCSVLineAux delim cs (!insideQuotes) cur
  | c :: cs, insideQuotes, cur =>
    if c = delim ∧ insideQuotes = false then
      trimChars cur :: parseCSVLineAux delim cs insideQuotes []
    else
      parseCSVLineAux delim cs insideQuotes (cur ++ [c])

/-- `parseCSVLine(line, delimiter)` from `csv-table.tsx`. -/
def parseCSVLine (delim : Char) (line : String) : List String :=
  (parseCSVLineAux delim line.toList false []).map String.mk

/-- A parsed row: the JS `Record<string, string>` as an association list. -/
abbrev Row := List (String × String)

/-- JS property assignment `row[k] = v`: overwrite in place if the key is
present (keeping its position), otherwise append the new key. -/
def recordInsert (r : Row) (k v : String) : Row :=
  if r.any (fun p => p.1 = k) then
    r.map (fun p => if p.1 = k then (k, v) else p)
  else
    r ++ [(k, v)]

/-- The padded/truncated field values of one row: the source's
`values[index] || ""` for `index` ranging over the header positions (note
`values[index] || ""` equals `values[index]` when present and non-empty, and
`""` otherwise, which is exactly `getD index ""`). -/
def rowValues (numHeaders : Nat) (values : List String) : List String :=
  (List.range numHeaders).map (fun i => values.getD i "")

/-- The `headers.forEach((header, index) => row[header] = values[index] || "")`
loop of `parseCSV`. -/
def buildRow (headers values : List String) : Row :=
  (headers.zip (rowValues headers.length values)).foldl
    (fun r kv => recordInsert r kv.1 kv.2) []

/-- `Object.values(row).some((v) => v.trim())` from `parseCSV`: keep the row
iff some stored value is non-blank after trimming. -/
def keepRow (row : Row) : Bool :=
  (row.map Prod.snd).any (fun v => trimStr v ≠ "")

theorem readCSVRow_snd_length_le (delim : Char) (line : String) (rest : List String) :
    ((readCSVRow delim line rest).2).length ≤ rest.length := by
  induction rest generalizing line with
  | nil => simp [readCSVRow]
  | cons next rest ih =>
    simp only [readCSVRow]
    split
    · exact Nat.le_succ_of_le (ih _)
    · simp

/-- The `while (i < lines.length)` loop of `parseCSV`, restricted to the
line-joining work of its repeated `readCSVRow` calls: `cur` is the line
currently being accumulated; while it holds an odd number of quotes the next
raw line is appended to it, otherwise it is emitted as a finished logical
row line and the scan restarts on the next raw line. -/
def joinRows (delim : Char) (cur : String) : List String → List String
  | [] => [cur]
  | next :: rest =>
    if countQuotes cur % 2 = 1 then
      joinRows delim (cur ++ "\n" ++ next) rest
    else
      cur :: joinRows delim next rest

/-- The sequence of logical row lines produced by the `parseCSV` loop from
the raw data lines (everything after the header line). -/
def logicalLines (delim : Char) : List String → List String
  | [] => []
  | l :: rest => joinRows delim l rest

/-- `joinRows` performs exactly the repeated `readCSVRow` calls of the
source loop: the first logical row line is `readCSVRow`'s joined line, and
the rest are produced from the raw lines `readCSVRow` left over (its
`nextIndex`). -/
theorem joinRows_eq_readCSVRow (delim : Char) (rest : List String) :
    ∀ cur, joinRows delim cur rest
      = (readCSVRow delim cur rest).1 :: logicalLines delim (readCSVRow delim cur rest).2 := by
  induction rest with
  | nil => intro cur; simp [joinRows, readCSVRow, logicalLines]
  | cons next rest2 ih =>
    intro cur
    by_cases h : countQuotes cur % 2 = 1
    · simp only [joinRows, readCSVRow, if_pos h]
      exact ih _
    · simp [joinRows, readCSVRow, h, logicalLines]

/-- The body of the `parseCSV` loop applied to one logical row line: skip it
when blank, otherwise tokenize it, build the row, and push the row when some
value is non-blank. -/
def parseRowStep (delim : Char) (headers : List String) (fullLine : String)
    (tail : List Row) : List Row :=
  if trimStr fullLine = "" then tail
  else
    let row := buildRow headers (parseCSVLine delim fullLine)
    if keepRow row then row :: tail else tail

/-- The full `while` loop of `parseCSV`: the loop body applied to each
logical row line in turn. -/
def parseRows (delim : Char) (headers : List String) (ls : List String) : List Row :=
  (logicalLines delim ls).foldr (parseRowStep delim headers) []

/-- The `CSVData` interface of `csv-table.tsx`. -/
structure CSVData where
  headers : List String
  rows : List Row
deriving DecidableEq, Repr

/-- `parseCSV(text)` from `csv-table.tsx`: split on newline, error when no
lines result (the source's `if (lines.length === 0)`), tokenize line 0 into
headers with the `";"` delimiter, then assemble the data rows. -/
def parseCSV (text : String) : Except String CSVData :=
  match splitLines text with
  | [] => Except.error "CSV file is empty"
  | l0 :: rest =>
    let headers := parseCSVLine ';' l0
    Except.ok ⟨headers, parseRows ';' headers rest⟩

/-- C1: a quoted field containing an embedded newline and an embedded
delimiter is parsed as one single field equal to its literal content, with
doubled quotes collapsed: joining the raw lines `a;"b` and `c;d";e` gives one
logical line whose tokenization under delimiter `;` is `["a", "b\nc;d", "e"]`,
and the field `"He said ""hi"""` tokenizes to `He said "hi"`. -/
theorem claimC1_quoted_field_tokenization :
    readCSVRow ';' "a;\"b" ["c;d\";e"] = ("a;\"b\nc;d\";e", [])
      ∧ parseCSVLine ';' "a;\"b\nc;d\";e" = ["a", "b\nc;d", "e"]
      ∧ parseCSVLine ';' "\"He said \"\"hi\"\"\"" = ["He said \"hi\""] := by
  refine ⟨rfl, ?_, ?_⟩ <;> decide

/-- `parseCSV` on an input whose lines split is nonempty never takes the
empty-input branch; `splitChar` always produces at least one piece, like JS
`String.prototype.split`. -/
theorem splitChar_ne_nil (sep : Char) (cs : List Char) : splitChar sep cs ≠ [] := by
  cases cs with
  | nil => simp [splitChar]
  | cons c cs =>
    simp only [splitChar]
    split
    · simp
    · split <;> simp

theorem splitLines_ne_nil (text : String) : splitLines text ≠ [] := by
  simp [splitLines, splitChar_ne_nil]

/-- `parseCSV` always succeeds: the split is never empty, and everything
after the length check is plain data-flow. -/
theorem parseCSV_ok (text : String) : ∃ d, parseCSV text = Except.ok d := by
  unfold parseCSV
  rcases h : splitLines text with _ | ⟨l0, rest⟩
  · exact absurd h (splitLines_ne_nil text)
  · exact ⟨_, rfl⟩

/- ### Table state (the `CSVTable` component) -/

/-- Sort direction of `sortConfig` (`"asc" | "desc"`). -/
inductive SortDir where
  | asc
  | desc
deriving DecidableEq, Repr

/-- The `sortConfig` state value `{ key, direction }`. -/
structure SortConfig where
  key : String
  direction : SortDir
deriving DecidableEq, Repr

/-- The mutable state of `CSVTable`: `sortConfig`, `currentPage`,
`rowsPerPage` and `visibleColumns` (the headers and rows are props, fixed for
the life of the component). -/
structure TableState where
  sortConfig : Option SortConfig
  currentPage : Nat
  rowsPerPage : Nat
  visibleColumns : Finset String
deriving DecidableEq

/-- The `useState` initial values: no sort, page 1, 20 rows per page, all
columns visible (`new Set(headers)`). -/
def initState (headers : List String) : TableState :=
  ⟨none, 1, 20, headers.toFinset⟩

/-- `(a[sortConfig.key] || "")`: the row's value under a key, empty string
when absent (also the lookup used for rendering cells). -/
def lookupRow (r : Row) (k : String) : String :=
  match r.find? (fun p => p.1 = k) with
  | some p => p.2
  | none => ""

/-- JS `String.prototype.toLowerCase`, character by character (ASCII model,
like `trimStr`). -/
def toLowerStr (s : String) : String :=
  String.mk (s.toList.map Char.toLower)

/-- Total order used to model `localeCompare` on the lowercased values:
lexicographic on the character lists. -/
def charListLe : List Char → List Char → Bool
  | [], _ => true
  | _ :: _, [] => false
  | a :: as, b :: bs => if a = b then charListLe as bs else decide (a < b)

/-- The comparator of `sortedRows`: compare `(row[key] || "").toLowerCase()`,
with the operands swapped for descending order. -/
def sortLe (cfg : SortConfig) (a b : Row) : Bool :=
  match cfg.direction with
  | .asc =>
    charListLe (toLowerStr (lookupRow a cfg.key)).toList (toLowerStr (lookupRow b cfg.key)).toList
  | .desc =>
    charListLe (toLowerStr (lookupRow b cfg.key)).toList (toLowerStr (lookupRow a cfg.key)).toList

/-- `sortedRows` from `CSVTable`: a copy of `rows`, stably sorted by the
comparator when `sortConfig` is set, in original order otherwise. -/
def sortedRows (rows : List Row) (cfg : Option SortConfig) : List Row :=
  match cfg with
  | none => rows
  | some c => rows.mergeSort (sortLe c)

/-- `totalPages = Math.ceil(sortedRows.length / rowsPerPage)`: for natural
`n` and positive `ps`, the real-number ceiling equals `(n + ps - 1) / ps` in
natural division.  Note the source applies no lower bound of 1. -/
def totalPages (rowCount pageSize : Nat) : Nat :=
  (rowCount + pageSize - 1) / pageSize

/-- The derived page count of the component for a given state. -/
def pageCount (rows : List Row) (s : TableState) : Nat :=
  totalPages (sortedRows rows s.sortConfig).length s.rowsPerPage

/-- `startIndex`/`endIndex`/`visibleRows`: the slice
`[(currentPage-1)*rowsPerPage, currentPage*rowsPerPage)` of the sorted rows. -/
def visibleRows (rows : List Row) (s : TableState) : List Row :=
  ((sortedRows rows s.sortConfig).drop ((s.currentPage - 1) * s.rowsPerPage)).take
    s.rowsPerPage

/-- `handleSort(key)`: same key at `asc` goes to `desc`, same key at `desc`
clears the sort, anything else starts `asc` on the clicked key; always
resets to page 1. -/
def handleSort (key : String) (s : TableState) : TableState :=
  { s with
    sortConfig :=
      match s.sortConfig with
      | some c =>
        if c.key = key then
          if c.direction = .asc then some ⟨key, .desc⟩ else none
        else some ⟨key, .asc⟩
      | none => some ⟨key, .asc⟩,
    currentPage := 1 }

/-- `handlePreviousPage`: `Math.max(1, prev - 1)`. -/
def handlePreviousPage (s : TableState) : TableState :=
  { s with currentPage := max 1 (s.currentPage - 1) }

/-- `handleNextPage`: `Math.min(totalPages, prev + 1)`. -/
def handleNextPage (rows : List Row) (s : TableState) : TableState :=
  { s with currentPage := min (pageCount rows s) (s.currentPage + 1) }

/-- `handleRowsPerPageChange`: install the selected page size and reset to
page 1. -/
def handleRowsPerPageChange (n : Nat) (s : TableState) : TableState :=
  { s with rowsPerPage := n, currentPage := 1 }

/-- `toggleColumn(header)`: delete the header from the visible set when
present, insert it otherwise. -/
def toggleColumn (header : String) (s : TableState) : TableState :=
  { s with
    visibleColumns :=
      if header ∈ s.visibleColumns then s.visibleColumns.erase header
      else insert header s.visibleColumns }

/-- `toggleAllColumns()`: clear the visible set when it already has
`headers.length` members, otherwise make every header visible. -/
def toggleAllColumns (headers : List String) (s : TableState) : TableState :=
  { s with
    visibleColumns :=
      if s.visibleColumns.card = headers.length then ∅ else headers.toFinset }

/-- One user interaction on the table, as the component wires them up: sort
clicks and column toggles are only issued for rendered headers, and the page
size comes from the fixed option list. -/
inductive TableStep (headers : List String) (rows : List Row) : TableState → TableState → Prop
  | sort (key : String) (hk : key ∈ headers) (s : TableState) :
      TableStep headers rows s (handleSort key s)
  | prevPage (s : TableState) : TableStep headers rows s (handlePreviousPage s)
  | nextPage (s : TableState) : TableStep headers rows s (handleNextPage rows s)
  | pageSize (n : Nat) (hn : n ∈ [10, 20, 50, 100]) (s : TableState) :
      TableStep headers rows s (handleRowsPerPageChange n s)
  | toggle (header : String) (hh : header ∈ headers) (s : TableState) :
      TableStep headers rows s (toggleColumn header s)
  | toggleAll (s : TableState) : TableStep headers rows s (toggleAllColumns headers s)

/-- States of the component reachable from its initial state. -/
def ReachableState (headers : List String) (rows : List Row) (s : TableState) : Prop :=
  Relation.ReflTransGen (TableStep headers rows) (initState headers) s

/- ### Claims C4, C5, C7, C8, C10 -/

/-- C4: `parseCSV` reports "CSV file is empty" exactly when the newline
split yields zero lines; the split always yields at least one line (as JS
`split` does), so on every input the parser succeeds and in particular never
raises this error. -/
theorem claimC4_empty_input_error :
    (∀ text, (parseCSV text = Except.error "CSV file is empty"
        ↔ (splitLines text).length = 0))
      ∧ (∀ text, 1 ≤ (splitLines text).length)
      ∧ (∀ text, ∃ d, parseCSV text = Except.ok d) := by
  refine ⟨?_, ?_, parseCSV_ok⟩
  · intro text
    constructor
    · intro h
      rcases parseCSV_ok text with ⟨d, hd⟩
      rw [hd] at h
      cases h
    · intro h
      exact absurd (List.length_eq_zero.mp h) (splitLines_ne_nil text)
  · intro text
    exact List.length_pos.mpr (splitLines_ne_nil text)

/-- C5 counterexample: with zero visible rows the source computes
`Math.ceil(0 / 20) = 0`, not the claimed minimum of 1. -/
theorem claimC5_counterexample : totalPages 0 20 = 0 ∧ totalPages 0 20 ≠ 1 := by
  decide

/-- C5 (amended): `totalPages` is exactly the real-number ceiling of
`rowCount / pageSize`, and it is at least 1 whenever at least one row is
visible — but the source imposes no minimum, so with zero visible rows it is
0 rather than 1. -/
theorem claimC5_total_pages_ceiling (n ps : Nat) (hps : 0 < ps) :
    totalPages n ps = ⌈(n : ℚ) / (ps : ℚ)⌉₊ ∧ (1 ≤ n → 1 ≤ totalPages n ps) := by
  obtain ⟨q, hq⟩ : ∃ q, (n + ps - 1) / ps = q := ⟨_, rfl⟩
  obtain ⟨r, hr2⟩ : ∃ r, (n + ps - 1) % ps = r := ⟨_, rfl⟩
  have h := Nat.div_add_mod (n + ps - 1) ps
  have hr : (n + ps - 1) % ps < ps := Nat.mod_lt _ hps
  rw [hq, hr2] at h
  rw [hr2] at hr
  have hTp : totalPages n ps = q := by
    unfold totalPages
    exact hq
  have hcomm : ps * q = q * ps := mul_comm ps q
  have hub : n ≤ q * ps := by omega
  have hq1 : 1 ≤ n → 1 ≤ q := by
    intro hn
    rcases Nat.eq_zero_or_pos q with rfl | h1
    · rw [mul_zero] at hcomm
      omega
    · exact h1
  constructor
  · rcases Nat.eq_zero_or_pos n with rfl | hn
    · unfold totalPages
      rw [Nat.div_eq_of_lt (by omega)]
      simp
    · have hq1' := hq1 hn
      have hlb : (q - 1) * ps < n := by
        have hsub : (q - 1) * ps = q * ps - ps := by
          rw [Nat.sub_mul, one_mul]
        omega
      have hps' : (0 : ℚ) < (ps : ℚ) := by exact_mod_cast hps
      rw [hTp]
      symm
      rw [Nat.ceil_eq_iff (by omega : q ≠ 0)]
      constructor
      · rw [lt_div_iff₀ hps']
        exact_mod_cast hlb
      · rw [div_le_iff₀ hps']
        exact_mod_cast hub
  · intro hn
    rw [hTp]
    exact hq1 hn

/-- C5 amended-claim witness at 45 rows and page size 20 (`totalPages = 3`). -/
theorem claimC5_total_pages_ceiling_witness :
    totalPages 45 20 = ⌈(45 : ℚ) / (20 : ℚ)⌉₊ ∧ (1 ≤ 45 → 1 ≤ totalPages 45 20) :=
  claimC5_total_pages_ceiling 45 20 (by norm_num)

/-- C7: starting from a state with no sort, three successive `handleSort`
clicks on the same column go ascending, then descending, then back to no
sort; each click resets the page to 1, and after the third click the row
order delivered by `sortedRows` is exactly the original parse order. -/
theorem claimC7_sort_three_click_cycle (rows : List Row) (key : String) (s : TableState)
    (h : s.sortConfig = none) :
    (handleSort key s).sortConfig = some ⟨key, .asc⟩
      ∧ (handleSort key (handleSort key s)).sortConfig = some ⟨key, .desc⟩
      ∧ (handleSort key (handleSort key (handleSort key s))).sortConfig = none
      ∧ (handleSort key s).currentPage = 1
      ∧ (handleSort key (handleSort key s)).currentPage = 1
      ∧ (handleSort key (handleSort key (handleSort key s))).currentPage = 1
      ∧ sortedRows rows (handleSort key (handleSort key (handleSort key s))).sortConfig
          = rows := by
  simp [handleSort, h, sortedRows]

/-- C7 witness: the cycle concretely, from the initial state on column `A`. -/
theorem claimC7_sort_three_click_cycle_witness :
    (handleSort "A" (initState ["A"])).sortConfig = some ⟨"A", .asc⟩
      ∧ (handleSort "A" (handleSort "A" (initState ["A"]))).sortConfig = some ⟨"A", .desc⟩
      ∧ (handleSort "A" (handleSort "A" (handleSort "A" (initState ["A"])))).sortConfig = none
      ∧ (handleSort "A" (initState ["A"])).currentPage = 1
      ∧ (handleSort "A" (handleSort "A" (initState ["A"]))).currentPage = 1
      ∧ (handleSort "A" (handleSort "A" (handleSort "A" (initState ["A"])))).currentPage = 1
      ∧ sortedRows [[("A", "x")]]
          (handleSort "A" (handleSort "A" (handleSort "A" (initState ["A"])))).sortConfig
          = [[("A", "x")]] :=
  claimC7_sort_three_click_cycle [[("A", "x")]] "A" (initState ["A"]) rfl

/-- 45 distinguishable one-column rows, for the pagination example. -/
def rows45 : List Row := (List.range 45).map (fun i => [("n", toString i)])

/-- The table state on page 3 with page size 20 and no sort. -/
def st45 : TableState := ⟨none, 3, 20, ∅⟩

/-- C8: within the range the component can reach (at least one page, current
page in `[1, totalPages]`), the previous/next navigation keeps the page in
`[1, totalPages]`; concretely with 45 rows and page size 20 there are 3
pages, page 3 shows exactly rows 41–45 (5 rows, the slice
`[(3-1)*20, 3*20)`), and requesting page 4 via next clamps to page 3. -/
theorem claimC8_page_clamp_and_slice :
    (∀ (rows : List Row) (s : TableState),
        1 ≤ pageCount rows s → 1 ≤ s.currentPage → s.currentPage ≤ pageCount rows s →
          1 ≤ (handleNextPage rows s).currentPage
            ∧ (handleNextPage rows s).currentPage ≤ pageCount rows s
            ∧ 1 ≤ (handlePreviousPage s).currentPage
            ∧ (handlePreviousPage s).currentPage ≤ pageCount rows s)
      ∧ pageCount rows45 st45 = 3
      ∧ visibleRows rows45 st45 = rows45.drop 40
      ∧ (visibleRows rows45 st45).length = 5
      ∧ (handleNextPage rows45 st45).currentPage = 3 := by
  refine ⟨?_, ?_, ?_, ?_, ?_⟩
  · intro rows s h1 h2 h3
    refine ⟨?_, ?_, ?_, ?_⟩ <;>
      simp only [handleNextPage, handlePreviousPage] <;> omega
  · decide
  · decide
  · decide
  · decide

/-- C8 witness: the clamping bounds instantiated at the 45-row example on
page 3 (`pageCount = 3`). -/
theorem claimC8_page_clamp_and_slice_witness :
    1 ≤ (handleNextPage rows45 st45).currentPage
      ∧ (handleNextPage rows45 st45).currentPage ≤ pageCount rows45 st45
      ∧ 1 ≤ (handlePreviousPage st45).currentPage
      ∧ (handlePreviousPage st45).currentPage ≤ pageCount rows45 st45 :=
  claimC8_page_clamp_and_slice.1 rows45 st45 (by decide) (by decide) (by decide)

/-- C10: the parse loop terminates on every input.  `readCSVRow` consumes at
least the current raw line — the raw lines it returns are a suffix of the
lines after the current one, so the source's `nextIndex` strictly exceeds
`startIndex` even when quotes stay unbalanced to end of input — the loop's
repeated `readCSVRow` calls are exactly the structurally terminating
`joinRows` recursion, and `parseCSV` returns a result on every input
string. -/
theorem claimC10_parse_terminates :
    (∀ (delim : Char) (line : String) (rest : List String),
        ((readCSVRow delim line rest).2).length ≤ rest.length)
      ∧ (∀ (delim : Char) (cur : String) (rest : List String),
          joinRows delim cur rest
            = (readCSVRow delim cur rest).1
                :: logicalLines delim (readCSVRow delim cur rest).2)
      ∧ (∀ text, ∃ d, parseCSV text = Except.ok d) :=
  ⟨readCSVRow_snd_length_le,
   fun delim cur rest => joinRows_eq_readCSVRow delim rest cur,
   parseCSV_ok⟩

/- ### Blank-line and row-construction lemmas (claims C2, C3) -/

theorem all_ws_of_trimChars_eq_nil (cs : List Char) (h : trimChars cs = []) :
    ∀ c ∈ cs, isWS c = true := by
  unfold trimChars at h
  have h1 : (cs.dropWhile isWS).reverse.dropWhile isWS = [] :=
    List.reverse_eq_nil_iff.mp h
  have h2 : ∀ x ∈ cs.dropWhile isWS, isWS x = true := by
    intro x hx
    exact List.dropWhile_eq_nil_iff.mp h1 x (List.mem_reverse.mpr hx)
  intro c hc
  rw [← List.takeWhile_append_dropWhile isWS cs] at hc
  rcases List.mem_append.mp hc with h3 | h3
  · exact List.mem_takeWhile_imp h3
  · exact h2 c h3

theorem parseCSVLineAux_ws (cs : List Char) :
    ∀ cur, (∀ c ∈ cs, isWS c = true) →
      parseCSVLineAux ';' cs false cur = [trimChars (cur ++ cs)] := by
  induction cs with
  | nil =>
    intro cur _
    simp [parseCSVLineAux]
  | cons c cs ih =>
    intro cur hws
    have hc : ((c = ' ' ∨ c = '\t') ∨ c = '\n') ∨ c = '\r' := by
      have := hws c (List.mem_cons_self c cs)
      simpa [isWS] using this
    have htail : ∀ x ∈ cs, isWS x = true := fun x hx => hws x (List.mem_cons_of_mem c hx)
    have hstep : cur ++ c :: cs = (cur ++ [c]) ++ cs := by
      rw [List.append_cons, List.append_assoc]
    rcases hc with ((rfl | rfl) | rfl) | rfl <;> rw [hstep] <;> exact ih (cur ++ [_]) htail

/-- Tokenizing a blank (all-whitespace) logical row line yields the single
empty field. -/
theorem parseCSVLine_blank (l : String) (h : trimStr l = "") : parseCSVLine ';' l = [""] := by
  have hnil : trimChars l.toList = [] := by
    have h' : String.mk (trimChars l.toList) = String.mk [] := h
    injection h'
  have hws : ∀ c ∈ l.toList, isWS c = true := all_ws_of_trimChars_eq_nil _ hnil
  unfold parseCSVLine
  rw [parseCSVLineAux_ws l.toList [] hws]
  show [String.mk (trimChars ([] ++ l.toList))] = [""]
  rw [List.nil_append, hnil]

theorem mem_foldl_recordInsert_snd (P : String → Prop) (kvs : List (String × String)) :
    ∀ acc : Row, (∀ p ∈ acc, P p.2) → (∀ p ∈ kvs, P p.2) →
      ∀ p ∈ kvs.foldl (fun r kv => recordInsert r kv.1 kv.2) acc, P p.2 := by
  induction kvs with
  | nil =>
    intro acc hacc _ p hp
    exact hacc p hp
  | cons kv kvs ih =>
    intro acc hacc hkvs p hp
    refine ih (recordInsert acc kv.1 kv.2) ?_ (fun q hq => hkvs q (List.mem_cons_of_mem kv hq)) p hp
    intro q hq
    unfold recordInsert at hq
    split at hq
    · rcases List.mem_map.mp hq with ⟨q', hq', hq'eq⟩
      subst hq'eq
      split
      · exact hkvs kv (List.mem_cons_self kv kvs)
      · exact hacc q' hq'
    · rcases List.mem_append.mp hq with h | h
      · exact hacc q h
      · rcases List.mem_singleton.mp h with rfl
        exact hkvs kv (List.mem_cons_self kv kvs)

theorem rowValues_singleton_empty (n : Nat) : ∀ v ∈ rowValues n [""], v = "" := by
  intro v hv
  rcases List.mem_map.mp hv with ⟨i, _, rfl⟩
  cases i <;> rfl

/-- A row built from the blank tokenization `[""]` fails the non-blank test. -/
theorem keepRow_buildRow_blank (headers : List String) :
    keepRow (buildRow headers [""]) = false := by
  have hall : ∀ p ∈ buildRow headers [""], p.2 = "" := by
    refine mem_foldl_recordInsert_snd (fun v => v = "") _ [] (by simp) ?_
    intro p hp
    exact rowValues_singleton_empty _ p.2 (List.of_mem_zip hp).2
  rw [keepRow, List.any_eq_false]
  intro v hv
  rcases List.mem_map.mp hv with ⟨p, hp, rfl⟩
  rw [hall p hp]
  simp [trimStr, trimChars]

/-- The `parseCSV` loop keeps exactly the built rows that pass the
non-blank test: skipping blank logical lines drops nothing else, because a
blank line tokenizes to `[""]`, whose built row is all-blank anyway. -/
theorem parseRows_filter_eq (headers : List String) (ls : List String) :
    parseRows ';' headers ls
      = ((logicalLines ';' ls).map
          (fun l => buildRow headers (parseCSVLine ';' l))).filter keepRow := by
  unfold parseRows
  generalize logicalLines ';' ls = L
  induction L with
  | nil => rfl
  | cons l L ih =>
    rw [List.foldr_cons, ih, List.map_cons, List.filter_cons]
    by_cases hbl : trimStr l = ""
    · rw [parseRowStep, if_pos hbl, parseCSVLine_blank l hbl,
        keepRow_buildRow_blank headers]
      simp
    · rw [parseRowStep, if_neg hbl]

/-- C3: a parsed logical row line's row is appended iff some of its stored
values is non-blank after trimming — the loop equals a `filter` by the
non-blank test over the built rows of all logical row lines — and
concretely `x;;y` under headers `H1;H2;H3` is kept as
`{H1: "x", H2: "", H3: "y"}` while the all-blank row `;;` is dropped. -/
theorem claimC3_blank_row_filtering :
    (∀ (headers : List String) (ls : List String),
        parseRows ';' headers ls
          = ((logicalLines ';' ls).map
              (fun l => buildRow headers (parseCSVLine ';' l))).filter keepRow)
      ∧ (∀ row : Row, keepRow row = true ↔ ∃ v ∈ row.map Prod.snd, trimStr v ≠ "")
      ∧ parseCSV "H1;H2;H3\nx;;y"
          = Except.ok ⟨["H1", "H2", "H3"], [[("H1", "x"), ("H2", ""), ("H3", "y")]]⟩
      ∧ parseCSV "H1;H2;H3\n;;" = Except.ok ⟨["H1", "H2", "H3"], []⟩ := by
  refine ⟨parseRows_filter_eq, ?_, rfl, rfl⟩
  intro row
  rw [keepRow, List.any_eq_true]
  constructor
  · rintro ⟨v, hv, hvp⟩
    exact ⟨v, hv, of_decide_eq_true hvp⟩
  · rintro ⟨v, hv, hvp⟩
    exact ⟨v, hv, decide_eq_true hvp⟩

/- ### Record-key lemmas (claim C2) -/

theorem fst_recordInsert (r : Row) (k v : String) :
    (recordInsert r k v).map Prod.fst
      = if r.any (fun p => p.1 = k) then r.map Prod.fst else r.map Prod.fst ++ [k] := by
  unfold recordInsert
  split
  · rw [List.map_map]
    refine List.map_congr_left ?_
    intro p _
    show ((if p.1 = k then (k, v) else p) : String × String).1 = p.1
    split
    · rename_i hpk
      exact hpk.symm
    · rfl
  · rw [List.map_append]
    rfl

theorem mem_fst_recordInsert (r : Row) (k v x : String) :
    x ∈ (recordInsert r k v).map Prod.fst ↔ x ∈ r.map Prod.fst ∨ x = k := by
  rw [fst_recordInsert]
  split
  · rename_i h
    constructor
    · exact Or.inl
    · rintro (hx | rfl)
      · exact hx
      · rcases List.any_eq_true.mp h with ⟨p, hp, hpk⟩
        have : p.1 = x := of_decide_eq_true hpk
        exact this ▸ List.mem_map_of_mem Prod.fst hp
  · simp

theorem nodup_fst_recordInsert (r : Row) (k v : String)
    (h : (r.map Prod.fst).Nodup) : ((recordInsert r k v).map Prod.fst).Nodup := by
  rw [fst_recordInsert]
  split
  · exact h
  · rename_i hany
    rw [List.nodup_append]
    refine ⟨h, List.nodup_singleton k, ?_⟩
    intro x hx hk
    rcases List.mem_singleton.mp hk with rfl
    rcases List.mem_map.mp hx with ⟨p, hp, hpx⟩
    have : r.any (fun p => p.1 = x) = true :=
      List.any_eq_true.mpr ⟨p, hp, decide_eq_true hpx⟩
    exact hany this

theorem nodup_fst_foldl_recordInsert (kvs : List (String × String)) :
    ∀ acc : Row, ((acc.map Prod.fst).Nodup) →
      (((kvs.foldl (fun r kv => recordInsert r kv.1 kv.2) acc).map Prod.fst).Nodup) := by
  induction kvs with
  | nil => intro acc h; exact h
  | cons kv kvs ih =>
    intro acc h
    exact ih (recordInsert acc kv.1 kv.2) (nodup_fst_recordInsert acc kv.1 kv.2 h)

theorem mem_fst_foldl_recordInsert (kvs : List (String × String)) :
    ∀ (acc : Row) (x : String),
      (x ∈ (kvs.foldl (fun r kv => recordInsert r kv.1 kv.2) acc).map Prod.fst
        ↔ x ∈ acc.map Prod.fst ∨ x ∈ kvs.map Prod.fst) := by
  induction kvs with
  | nil =>
    intro acc x
    simp
  | cons kv kvs ih =>
    intro acc x
    rw [List.foldl_cons, ih (recordInsert acc kv.1 kv.2) x, mem_fst_recordInsert]
    simp only [List.map_cons, List.mem_cons]
    tauto

theorem foldl_recordInsert_eq_append (kvs : List (String × String)) :
    ∀ acc : Row, (kvs.map Prod.fst).Nodup →
      (∀ k ∈ kvs.map Prod.fst, k ∉ acc.map Prod.fst) →
      kvs.foldl (fun r kv => recordInsert r kv.1 kv.2) acc = acc ++ kvs := by
  induction kvs with
  | nil =>
    intro acc _ _
    simp
  | cons kv kvs ih =>
    intro acc hnd hdisj
    have hnd' : kv.1 ∉ kvs.map Prod.fst ∧ (kvs.map Prod.fst).Nodup := by
      rw [List.map_cons, List.nodup_cons] at hnd
      exact hnd
    have hknot : ¬ acc.any (fun p => p.1 = kv.1) = true := by
      intro hany
      rcases List.any_eq_true.mp hany with ⟨p, hp, hpk⟩
      have hpk' : p.1 = kv.1 := of_decide_eq_true hpk
      exact hdisj kv.1 (by simp) (hpk' ▸ List.mem_map_of_mem Prod.fst hp)
    have hri : recordInsert acc kv.1 kv.2 = acc ++ [kv] := by
      unfold recordInsert
      rw [if_neg hknot]
    have hdisj' : ∀ k ∈ kvs.map Prod.fst, k ∉ (acc ++ [kv]).map Prod.fst := by
      intro k hk hmem
      rw [List.map_append, List.mem_append] at hmem
      rcases hmem with hka | hkk
      · exact hdisj k (List.mem_cons_of_mem _ hk) hka
      · have hkeq : k = kv.1 := by simpa using hkk
        exact hnd'.1 (hkeq ▸ hk)
    rw [List.foldl_cons, hri, ih (acc ++ [kv]) hnd'.2 hdisj', List.append_assoc]
    rfl

theorem buildRow_eq_zip (headers values : List String) (h : headers.Nodup) :
    buildRow headers values = headers.zip (rowValues headers.length values) := by
  unfold buildRow
  have hlen : headers.length ≤ (rowValues headers.length values).length := by
    simp [rowValues]
  have hfst : (headers.zip (rowValues headers.length values)).map Prod.fst = headers :=
    List.map_fst_zip _ _ hlen
  rw [foldl_recordInsert_eq_append _ [] (by rw [hfst]; exact h) (by simp)]
  rfl

theorem fst_buildRow_mem (headers values : List String) (x : String) :
    x ∈ (buildRow headers values).map Prod.fst ↔ x ∈ headers := by
  have hlen : headers.length ≤ (rowValues headers.length values).length := by
    simp [rowValues]
  unfold buildRow
  rw [mem_fst_foldl_recordInsert, List.map_fst_zip _ _ hlen]
  simp

theorem nodup_fst_buildRow (headers values : List String) :
    ((buildRow headers values).map Prod.fst).Nodup := by
  unfold buildRow
  exact nodup_fst_foldl_recordInsert _ [] (by simp)

theorem mem_parseRows_buildRow (headers : List String) (ls : List String) (row : Row)
    (h : row ∈ parseRows ';' headers ls) :
    ∃ l, row = buildRow headers (parseCSVLine ';' l) := by
  rw [parseRows_filter_eq] at h
  rcases List.mem_map.mp (List.mem_of_mem_filter h) with ⟨l, _, rfl⟩
  exact ⟨l, rfl⟩

/-- C2: in every successfully parsed dataset, each row's keys are free of
duplicates and are exactly the headers — one entry per header — and (for
duplicate-free headers, which the data model stipulates) the row is exactly
the headers zipped with the padded/truncated field values: position `i`
takes field `i` when present and the empty string otherwise, and fields
beyond the header count are dropped. -/
theorem claimC2_row_keys_fully_padded (text : String) (d : CSVData)
    (hok : parseCSV text = Except.ok d) (row : Row) (hrow : row ∈ d.rows) :
    (row.map Prod.fst).Nodup
      ∧ (∀ h, h ∈ row.map Prod.fst ↔ h ∈ d.headers)
      ∧ (d.headers.Nodup → ∃ values : List String,
          row = d.headers.zip
            ((List.range d.headers.length).map (fun i => values.getD i ""))) := by
  unfold parseCSV at hok
  rcases hsplit : splitLines text with _ | ⟨l0, rest⟩
  · rw [hsplit] at hok
    cases hok
  · rw [hsplit] at hok
    have hd : (⟨parseCSVLine ';' l0,
        parseRows ';' (parseCSVLine ';' l0) rest⟩ : CSVData) = d :=
      Except.ok.inj hok
    subst hd
    obtain ⟨l, rfl⟩ := mem_parseRows_buildRow _ rest row hrow
    refine ⟨nodup_fst_buildRow _ _, fun h => fst_buildRow_mem _ _ h, ?_⟩
    intro hnd
    exact ⟨parseCSVLine ';' l, buildRow_eq_zip _ _ hnd⟩

/-- C2 witness: parsing `a;b` then the short data line `x` pads the second
field with the empty string and keeps the key list equal to the headers. -/
theorem claimC2_row_keys_fully_padded_witness :
    (([("a", "x"), ("b", "")] : Row).map Prod.fst).Nodup
      ∧ (∀ h, h ∈ ([("a", "x"), ("b", "")] : Row).map Prod.fst ↔ h ∈ ["a", "b"])
      ∧ ((["a", "b"] : List String).Nodup → ∃ values : List String,
          ([("a", "x"), ("b", "")] : Row)
            = (["a", "b"] : List String).zip
                ((List.range (["a", "b"] : List String).length).map
                  (fun i => values.getD i ""))) :=
  claimC2_row_keys_fully_padded "a;b\nx" ⟨["a", "b"], [[("a", "x"), ("b", "")]]⟩ rfl
    [("a", "x"), ("b", "")] (by simp)

/- ### Text filtering (claim C6) -/

/-- Does `q` occur as a block starting at the head of `v`? -/
def isSubAt : List Char → List Char → Bool
  | [], _ => true
  | _ :: _, [] => false
  | a :: as, b :: bs => a = b && isSubAt as bs

/-- Substring scan, the semantics of JS `String.prototype.includes`: `q`
occurs as a contiguous block somewhere in `v`. -/
def containsSub : List Char → List Char → Bool
  | [], q => q.isEmpty
  | b :: rest, q => isSubAt q (b :: rest) || containsSub rest q

theorem isSubAt_iff (q : List Char) :
    ∀ v, isSubAt q v = true ↔ ∃ post, v = q ++ post := by
  induction q with
  | nil =>
    intro v
    simp [isSubAt]
  | cons a as ih =>
    intro v
    cases v with
    | nil =>
      simp [isSubAt]
    | cons b bs =>
      rw [show isSubAt (a :: as) (b :: bs) = (decide (a = b) && isSubAt as bs) from rfl]
      rw [Bool.and_eq_true, decide_eq_true_iff, ih bs]
      constructor
      · rintro ⟨rfl, post, rfl⟩
        exact ⟨post, rfl⟩
      · rintro ⟨post, hpost⟩
        injection hpost with h1 h2
        exact ⟨h1.symm, post, h2⟩

theorem containsSub_iff (q : List Char) :
    ∀ v, containsSub v q = true ↔ ∃ pre post, v = pre ++ q ++ post := by
  intro v
  induction v with
  | nil =>
    rw [show containsSub [] q = q.isEmpty from rfl]
    constructor
    · intro h
      refine ⟨[], [], ?_⟩
      rw [List.isEmpty_iff.mp h]
      rfl
    · rintro ⟨pre, post, hp⟩
      rcases List.append_eq_nil.mp hp.symm with ⟨h1, rfl⟩
      rcases List.append_eq_nil.mp h1 with ⟨rfl, rfl⟩
      rfl
  | cons b bs ih =>
    rw [show containsSub (b :: bs) q = (isSubAt q (b :: bs) || containsSub bs q) from rfl]
    rw [Bool.or_eq_true, isSubAt_iff, ih]
    constructor
    · rintro (⟨post, hpost⟩ | ⟨pre, post, hpp⟩)
      · exact ⟨[], post, by simpa using hpost⟩
      · exact ⟨b :: pre, post, by simp [hpp]⟩
    · rintro ⟨pre, post, hpp⟩
      cases pre with
      | nil =>
        exact Or.inl ⟨post, by simpa using hpp⟩
      | cons p ps =>
        right
        injection hpp with h1 h2
        exact ⟨ps, post, h2⟩

/-- Modelled from the spec: the per-column text filter of the Table State
Engine (`setFilterText` and step (b) of `getVisibleRows`).  The filtering
code itself is not among the provided sources — only the spec describes it —
so this follows the spec's words: a case-insensitive substring match of the
query against the row's value in that column (missing cells compare as the
empty string), with a blank or whitespace-only query imposing no
constraint. -/
def matchesFilter (row : Row) (column query : String) : Bool :=
  trimStr query = ""
    || containsSub (toLowerStr (lookupRow row column)).toList (toLowerStr query).toList

/-- Modelled from the spec: all active text filters combined with AND
semantics — a row stays visible iff it matches every column filter — with
the surviving rows kept in their original order. -/
def applyFilters (filters : List (String × String)) (rows : List Row) : List Row :=
  rows.filter (fun row => filters.all (fun f => matchesFilter row f.1 f.2))

/-- C6: filtering keeps exactly the rows whose value in the filtered column
contains the query as a case-insensitive substring (substring in the literal
contiguous-block sense), in original order, with AND semantics across
filters; an absent or blank filter imposes no constraint; and the
`alic` / {Alice, bob, ALICEX} example from the spec filters to
{Alice, ALICEX} in original order. -/
theorem claimC6_text_filtering :
    (∀ rows : List Row, applyFilters [] rows = rows)
      ∧ (∀ (filters : List (String × String)) (rows : List Row),
          (∀ f ∈ filters, trimStr f.2 = "") → applyFilters filters rows = rows)
      ∧ (∀ (filters : List (String × String)) (rows : List Row),
          (applyFilters filters rows).Sublist rows)
      ∧ (∀ (filters : List (String × String)) (rows : List Row) (row : Row),
          row ∈ applyFilters filters rows
            ↔ row ∈ rows ∧ ∀ f ∈ filters, matchesFilter row f.1 f.2 = true)
      ∧ (∀ v q : List Char, containsSub v q = true ↔ ∃ pre post, v = pre ++ q ++ post)
      ∧ applyFilters [("Name", "alic")]
          [[("Name", "Alice")], [("Name", "bob")], [("Name", "ALICEX")]]
          = [[("Name", "Alice")], [("Name", "ALICEX")]] := by
  refine ⟨?_, ?_, ?_, ?_, fun v q => containsSub_iff q v, ?_⟩
  · intro rows
    simp [applyFilters]
  · intro filters rows hbl
    unfold applyFilters
    rw [List.filter_eq_self]
    intro row _
    rw [List.all_eq_true]
    intro f hf
    unfold matchesFilter
    rw [hbl f hf]
    simp
  · intro filters rows
    exact List.filter_sublist rows
  · intro filters rows row
    simp [applyFilters, List.mem_filter, List.all_eq_true]
  · decide

/-- C6 witness: a whitespace-only query leaves the rows untouched. -/
theorem claimC6_text_filtering_witness :
    applyFilters [("Name", "  ")] [[("Name", "Alice")]] = [[("Name", "Alice")]] :=
  claimC6_text_filtering.2.1 [("Name", "  ")] [[("Name", "Alice")]]
    (by
      intro f hf
      rcases List.mem_singleton.mp hf with rfl
      rfl)

/- ### Column visibility (claim C9) -/

theorem step_preserves_visible_subset (headers : List String) (rows : List Row)
    (s t : TableState) (hstep : TableStep headers rows s t)
    (hs : ∀ c ∈ s.visibleColumns, c ∈ headers) :
    ∀ c ∈ t.visibleColumns, c ∈ headers := by
  cases hstep with
  | sort key hk s => exact hs
  | prevPage s => exact hs
  | nextPage s => exact hs
  | pageSize n hn s => exact hs
  | toggle header hh s =>
    intro c hc
    unfold toggleColumn at hc
    simp only at hc
    split at hc
    · exact hs c (Finset.mem_of_mem_erase hc)
    · rcases Finset.mem_insert.mp hc with rfl | hc'
      · exact hh
      · exact hs c hc'
  | toggleAll s =>
    intro c hc
    unfold toggleAllColumns at hc
    simp only at hc
    split at hc
    · exact absurd hc (Finset.not_mem_empty c)
    · exact List.mem_toFinset.mp hc

/-- C9: every state the component can reach keeps its visible-column set a
subset of the header list, and the two visibility toggles change nothing but
that set — the sort state, the current page, the page size, and the sorted
row sequence delivered for rendering are untouched. -/
theorem claimC9_visible_columns_invariant (headers : List String) (rows : List Row)
    (s : TableState) (hs : ReachableState headers rows s) :
    (∀ c ∈ s.visibleColumns, c ∈ headers)
      ∧ (∀ (c : String) (t : TableState),
          (toggleColumn c t).sortConfig = t.sortConfig
            ∧ (toggleColumn c t).currentPage = t.currentPage
            ∧ (toggleColumn c t).rowsPerPage = t.rowsPerPage
            ∧ sortedRows rows (toggleColumn c t).sortConfig = sortedRows rows t.sortConfig)
      ∧ (∀ t : TableState,
          (toggleAllColumns headers t).sortConfig = t.sortConfig
            ∧ (toggleAllColumns headers t).currentPage = t.currentPage
            ∧ (toggleAllColumns headers t).rowsPerPage = t.rowsPerPage
            ∧ sortedRows rows (toggleAllColumns headers t).sortConfig
                = sortedRows rows t.sortConfig) := by
  refine ⟨?_, fun c t => ⟨rfl, rfl, rfl, rfl⟩, fun t => ⟨rfl, rfl, rfl, rfl⟩⟩
  induction hs with
  | refl =>
    intro c hc
    exact List.mem_toFinset.mp hc
  | tail hab hbc ih =>
    exact step_preserves_visible_subset headers rows _ _ hbc ih

/-- C9 witness: the invariant and preservation facts at the initial state on
headers `["A", "B"]`. -/
theorem claimC9_visible_columns_invariant_witness :
    (∀ c ∈ (initState ["A", "B"]).visibleColumns, c ∈ ["A", "B"])
      ∧ (∀ (c : String) (t : TableState),
          (toggleColumn c t).sortConfig = t.sortConfig
            ∧ (toggleColumn c t).currentPage = t.currentPage
            ∧ (toggleColumn c t).rowsPerPage = t.rowsPerPage
            ∧ sortedRows [] (toggleColumn c t).sortConfig = sortedRows [] t.sortConfig)
      ∧ (∀ t : TableState,
          (toggleAllColumns ["A", "B"] t).sortConfig = t.sortConfig
            ∧ (toggleAllColumns ["A", "B"] t).currentPage = t.currentPage
            ∧ (toggleAllColumns ["A", "B"] t).rowsPerPage = t.rowsPerPage
            ∧ sortedRows [] (toggleAllColumns ["A", "B"] t).sortConfig
                = sortedRows [] t.sortConfig) :=
  claimC9_visible_columns_invariant ["A", "B"] [] (initState ["A", "B"])
    Relation.ReflTransGen.refl
